import Mathlib

/-!
Shallow embedding of the mood-tracker analytics core
(`src/analytics.py`, `src/shared/models.py`, `src/mood_analyzer_service.py`)
and proofs about the specified behaviour.

Numbers are embedded as rationals, Python dict grouping as insertion-ordered
association lists, raised exceptions (`KeyError` on a strict dict lookup) as
`Option.none`, and timestamps as integer minutes since an epoch midnight.
-/

set_option maxRecDepth 8000

/-- The seven mood labels in ordinal order, worst to best
(`MOOD_VALUES` in `analytics.py`, `MoodType` in `shared/models.py`). -/
def moodLabels : List String :=
  ["very bad", "bad", "slightly bad", "neutral", "slightly well", "well", "very well"]

/-- The `MOOD_VALUES` dict of `analytics.py` as an association list. -/
def MOOD_VALUES : List (String × ℚ) :=
  [("very bad", 1), ("bad", 2), ("slightly bad", 3), ("neutral", 4),
   ("slightly well", 5), ("well", 6), ("very well", 7)]

/-- Strict dict indexing `MOOD_VALUES[s]`; `none` models a raised `KeyError`. -/
def moodValue? (s : String) : Option ℚ := MOOD_VALUES.lookup s

/-- `MoodType.get_value` of `shared/models.py`: the same mapping read with
`dict.get(mood_str, 4)`, total with default 4. -/
def MoodType.get_value (s : String) : ℚ := (moodValue? s).getD 4

/-- Python's `str.lower()` as a character-wise map (an executable form of
`String.toLower`; the mood labels are ASCII). -/
def pyLower (s : String) : String := ⟨s.data.map Char.toLower⟩

/-- `MoodAnalyzer._mood_to_numeric` of `mood_analyzer_service.py`:
lowercases the label, then `dict.get(..., 4.0)`. -/
def mood_to_numeric (s : String) : ℚ := (moodValue? (pyLower s)).getD 4

/-- Round to the nearest integer, ties to even (Python `round` semantics). -/
def pyRound (q : ℚ) : ℤ :=
  let f := ⌊q⌋
  let r := q - (f : ℚ)
  if r < 1/2 then f else if 1/2 < r then f + 1 else if f % 2 = 0 then f else f + 1

/-- Python `round(q, 1)`. -/
def round1 (q : ℚ) : ℚ := (pyRound (q * 10) : ℚ) / 10

/-- Python `round(q, 2)`. -/
def round2 (q : ℚ) : ℚ := (pyRound (q * 100) : ℚ) / 100

/-- Python `round(q, 4)`. -/
def round4 (q : ℚ) : ℚ := (pyRound (q * 10000) : ℚ) / 10000

/-- `sum(l) / len(l)` (and `statistics.mean`); division by zero yields 0 on `[]`. -/
def mean (l : List ℚ) : ℚ := l.sum / l.length

/-- A civil (calendar) date, as Python's `datetime.date`. -/
structure CivilDate where
  year : ℕ
  month : ℕ
  day : ℕ
deriving DecidableEq, Repr

/-- Proleptic Gregorian leap-year test, as Python's `calendar.isleap`. -/
def CivilDate.isLeap (y : ℕ) : Bool := (y % 4 == 0 && y % 100 != 0) || y % 400 == 0

/-- Length of a month, as Python's `calendar.monthrange(y, m)[1]`. -/
def CivilDate.daysInMonth (y m : ℕ) : ℕ :=
  if m = 2 then (if CivilDate.isLeap y then 29 else 28)
  else if m = 4 ∨ m = 6 ∨ m = 9 ∨ m = 11 then 30 else 31

/-- Days in year `y` strictly before month `m`. -/
def CivilDate.daysBeforeMonth (y m : ℕ) : ℕ :=
  ((List.range (m - 1)).map (fun i => CivilDate.daysInMonth y (i + 1))).sum

/-- Python's `date.toordinal`: day 1 is 0001-01-01, a Monday. -/
def CivilDate.toordinal (d : CivilDate) : ℕ :=
  365 * (d.year - 1) + (d.year - 1) / 4 - (d.year - 1) / 100 + (d.year - 1) / 400
    + CivilDate.daysBeforeMonth d.year d.month + d.day

/-- Python's `date.weekday()`: 0 = Monday, 6 = Sunday. -/
def CivilDate.weekday (d : CivilDate) : ℕ := (d.toordinal + 6) % 7

/-- One row of the `moods` table as consumed by the analytics classes:
a mood label, a civil date, and an optional UTC timestamp in minutes. -/
structure Obs where
  mood : String
  date : CivilDate
  timestamp : Option ℤ
deriving DecidableEq, Repr

/-- All labels in a list are recognized by the `MOOD_VALUES` dict. -/
def validMoods (moods : List Obs) : Prop := ∀ e ∈ moods, (moodValue? e.mood).isSome

instance : DecidablePred validMoods := fun moods =>
  inferInstanceAs (Decidable (∀ e ∈ moods, (moodValue? e.mood).isSome))

/-- The loop body of `MoodAnalytics.calculate_streak`, on the iteration order of
the Python loop: count while the value is `>= 5`, stop at the first value below,
`none` models the `KeyError` raised on an unrecognized label. -/
def streakLoop : List Obs → Option ℕ
  | [] => some 0
  | e :: rest =>
    match moodValue? e.mood with
    | none => none
    | some v => if 5 ≤ v then (streakLoop rest).map (· + 1) else some 0

/-- `MoodAnalytics.calculate_streak`: iterates `reversed(self.moods)`. -/
def calculate_streak (moods : List Obs) : Option ℕ := streakLoop moods.reverse

/-- The streak as the specification states it: the number of consecutive leading
observations, starting at the first (most recent) element of the list as given,
whose mood value is `>= 5`, stopping at the first value below 5. -/
def streakSpec : List Obs → ℕ
  | [] => 0
  | e :: rest => if 5 ≤ MoodType.get_value e.mood then streakSpec rest + 1 else 0

/-- One insertion step of the insertion-ordered dict model used for
`defaultdict`-style grouping: append the value to an existing key's list,
or append a fresh key at the end. -/
def dictAppend {κ β : Type} [DecidableEq κ] (acc : List (κ × List β)) (k : κ) (v : β) :
    List (κ × List β) :=
  if k ∈ acc.map Prod.fst then
    acc.map (fun p => if p.1 = k then (p.1, p.2 ++ [v]) else p)
  else acc ++ [(k, [v])]

/-- Build the insertion-ordered grouping dict of a list, as the Python loops
`daily_moods[date].append(value)` and `correlations[tag][...]` do. -/
def groupByKey {α κ β : Type} [DecidableEq κ] (key : α → κ) (val : α → β) (l : List α) :
    List (κ × List β) :=
  l.foldl (fun acc a => dictAppend acc (key a) (val a)) []

/-- The result shape of `MoodAnalytics.calculate_averages`. -/
structure Averages where
  daily : ℚ
  good_days : ℚ
  bad_days : ℚ
  total_entries : ℕ
deriving DecidableEq, Repr

/-- `MoodAnalytics.calculate_averages`: group by civil date, average per date,
then aggregate the per-date averages; strict `MOOD_VALUES[...]` lookups, so
`none` models a `KeyError` on an unrecognized label. -/
def calculate_averages (moods : List Obs) : Option Averages :=
  if moods = [] then some ⟨0, 0, 0, 0⟩ else
  match moods.mapM (fun e => (moodValue? e.mood).map (fun v => (e.date, v))) with
  | none => none
  | some pairs =>
    let daily_averages := (groupByKey Prod.fst Prod.snd pairs).map (fun p => mean p.2)
    let good_days := daily_averages.filter (fun a => decide (5 ≤ a))
    let bad_days := daily_averages.filter (fun a => decide (¬ 5 ≤ a ∧ a ≤ 3))
    some ⟨(if daily_averages = [] then 0 else round2 (mean daily_averages)),
          (if good_days = [] then 0 else round2 (mean good_days)),
          (if bad_days = [] then 0 else round2 (mean bad_days)),
          daily_averages.length⟩

/-- The distinct civil dates of a list, in some order. -/
def specDates (moods : List Obs) : List CivilDate := (moods.map Obs.date).dedup

/-- The average mood value of the entries on one civil date, stated from the
spec's words with the total `MoodType.get_value` mapping. -/
def specDayAverage (moods : List Obs) (d : CivilDate) : ℚ :=
  mean ((moods.filter (fun e => decide (e.date = d))).map (fun e => MoodType.get_value e.mood))

/-- The daily-averages report as the specification states it: group by civil
date, average per date, average those per-date averages for `daily`,
`good_days` the mean of the per-date averages that are at least 5, `bad_days`
the mean of those at most 3, all rounded to 2 decimals with 0 for an empty
subset, and `total_entries` the number of distinct dates. -/
def specAverages (moods : List Obs) : Averages :=
  let das := (specDates moods).map (specDayAverage moods)
  let good := das.filter (fun a => decide (5 ≤ a))
  let bad := das.filter (fun a => decide (a ≤ 3))
  ⟨(if das = [] then 0 else round2 (mean das)),
   (if good = [] then 0 else round2 (mean good)),
   (if bad = [] then 0 else round2 (mean bad)),
   das.length⟩

/-- The valid (non-null) points of a gapped series, paired with their indices
(`[(i, val) for i, val in enumerate(data_points) if val is not None]`). -/
def validPts (data_points : List (Option ℚ)) : List (ℚ × ℚ) :=
  data_points.enum.filterMap (fun p => p.2.map (fun y => ((p.1 : ℚ), y)))

/-- Mean of the x (index) values of the valid points. -/
def xMean (data_points : List (Option ℚ)) : ℚ :=
  ((validPts data_points).map Prod.fst).sum / ((validPts data_points).length : ℚ)

/-- Mean of the y values of the valid points. -/
def yMean (data_points : List (Option ℚ)) : ℚ :=
  ((validPts data_points).map Prod.snd).sum / ((validPts data_points).length : ℚ)

/-- The regression numerator `sum((x - x_mean) * (y - y_mean))`. -/
def xyNum (data_points : List (Option ℚ)) : ℚ :=
  ((validPts data_points).map
    (fun p => (p.1 - xMean data_points) * (p.2 - yMean data_points))).sum

/-- The regression denominator `sum((x - x_mean) ** 2)`. -/
def xDen (data_points : List (Option ℚ)) : ℚ :=
  (((validPts data_points).map Prod.fst).map (fun x => (x - xMean data_points) ^ 2)).sum

/-- The dependent-variable variance numerator `sum((y - y_mean) ** 2)`. -/
def yVar (data_points : List (Option ℚ)) : ℚ :=
  (((validPts data_points).map Prod.snd).map (fun y => (y - yMean data_points) ^ 2)).sum

/-- The correlation coefficient as the code computes it. `zero` is the literal
0 of the degenerate branches (including the `y_variance == 0` guard);
`pearson num denProd` stands for `round(num / sqrt(denProd), 4)`, whose
irrational square root is kept symbolic. -/
inductive CorrVal where
  | zero : CorrVal
  | pearson (num denProd : ℚ) : CorrVal
deriving DecidableEq, Repr

/-- The result shape of `TrendAnalysisService.calculate_linear_regression`. -/
structure Regression where
  slope : ℚ
  intercept : ℚ
  correlation : CorrVal
deriving DecidableEq, Repr

/-- `TrendAnalysisService.calculate_linear_regression` over a gapped series. -/
def calculate_linear_regression (data_points : List (Option ℚ)) : Regression :=
  if data_points = [] ∨ data_points.length < 2 then ⟨0, 0, CorrVal.zero⟩ else
  if (validPts data_points).length < 2 then ⟨0, 0, CorrVal.zero⟩ else
  if xDen data_points = 0 then ⟨0, yMean data_points, CorrVal.zero⟩ else
  let slope := xyNum data_points / xDen data_points
  let intercept := yMean data_points - slope * xMean data_points
  let correlation := if yVar data_points = 0 then CorrVal.zero
    else CorrVal.pearson (xyNum data_points) (xDen data_points * yVar data_points)
  ⟨round4 slope, round4 intercept, correlation⟩

/-- The mean of the valid (non-null) values of a series, 0 when there are none;
this is what the claim says the degenerate intercept should be. -/
def specValidMean (data_points : List (Option ℚ)) : ℚ :=
  let vals := data_points.filterMap id
  if vals = [] then 0 else mean vals

/-- `TrendAnalysisService.generate_trend_line_data`: re-evaluate the fitted
line at every index, clamp into the mood range `[1, 7]` with
`max(1, min(7, v))`, round to 2 decimals, keep `None` at `None` positions. -/
def generate_trend_line_data (data_points : List (Option ℚ)) (regression : Regression) :
    List (Option ℚ) :=
  if data_points = [] then [] else
  data_points.enum.map (fun p =>
    match p.2 with
    | some _ =>
        some (round2 (max 1 (min 7 (regression.slope * (p.1 : ℚ) + regression.intercept))))
    | none => none)

/-- The result shape of `MoodAnalytics.get_weekly_patterns_for_period`. -/
structure WeeklyPatterns where
  data : List (Option ℚ)
  counts : List ℕ
deriving DecidableEq, Repr

/-- The observations of a period (Python date comparison is ordinal order). -/
def periodObs (start_date end_date : CivilDate) (moods : List Obs) : List Obs :=
  moods.filter (fun e =>
    decide (start_date.toordinal ≤ e.date.toordinal ∧ e.date.toordinal ≤ end_date.toordinal))

/-- The observations of a period falling on weekday `d`. -/
def periodDayObs (start_date end_date : CivilDate) (moods : List Obs) (d : ℕ) : List Obs :=
  (periodObs start_date end_date moods).filter (fun e => decide (e.date.weekday = d))

/-- `MoodAnalytics.get_weekly_patterns_for_period`: group the period's entries
by weekday, per-slot rounded average or `None`, per-slot count; the strict
lookup raises (`none`) only for labels inside the period. -/
def get_weekly_patterns_for_period (start_date end_date : CivilDate) (moods : List Obs) :
    Option WeeklyPatterns :=
  match (periodObs start_date end_date moods).mapM
      (fun e => (moodValue? e.mood).map (fun v => (e.date.weekday, v))) with
  | none => none
  | some pairs =>
    some ⟨(List.range 7).map (fun d =>
        let vs := (pairs.filter (fun p => decide (p.1 = d))).map Prod.snd
        if vs = [] then none else some (round2 (mean vs))),
      (List.range 7).map (fun d =>
        ((pairs.filter (fun p => decide (p.1 = d))).map Prod.snd).length)⟩

/-- The observations of a calendar year. -/
def yearObs (year : ℕ) (moods : List Obs) : List Obs :=
  moods.filter (fun e => decide (e.date.year = year))

/-- The observations of month `m` (1-based) of a year. -/
def monthObs (year : ℕ) (moods : List Obs) (m : ℕ) : List Obs :=
  (yearObs year moods).filter (fun e => decide (e.date.month = m))

/-- `MoodAnalytics.get_monthly_trends_for_year`: 12 month slots Jan..Dec,
rounded average per month, and the literal `0` for a month with no data. -/
def get_monthly_trends_for_year (year : ℕ) (moods : List Obs) : Option (List ℚ) :=
  match (yearObs year moods).mapM
      (fun e => (moodValue? e.mood).map (fun v => (e.date.month, v))) with
  | none => none
  | some pairs =>
    some ((List.range 12).map (fun i =>
      let vs := (pairs.filter (fun p => decide (p.1 = i + 1))).map Prod.snd
      if vs = [] then 0 else round1 (mean vs)))

/-- UTC to Chile conversion of `analytics.py`
(`chile_time = timestamp - timedelta(hours=3)`), on minute timestamps. -/
def toChileTime (t : ℤ) : ℤ := t - 180

/-- Hour of day of a minute timestamp (Python `.hour`); `%` and `/` on `ℤ`
are Euclidean, matching Python's floor semantics for the positive moduli
used here. -/
def tsHour (t : ℤ) : ℤ := t % 1440 / 60

/-- Civil-day number of a minute timestamp (Python `.date()` as a day index). -/
def tsDay (t : ℤ) : ℤ := t / 1440

/-- The local hour a UTC timestamp is bucketed under (`chile_time.hour`). -/
def chileHour (t : ℤ) : ℤ := tsHour (toChileTime t)

/-- The local civil day a UTC timestamp is attributed to (`chile_time.date()`). -/
def chileDay (t : ℤ) : ℤ := tsDay (toChileTime t)

/-- The mood label and timestamp of the entries that carry a timestamp
(entries with `if not timestamp: continue` are skipped before any lookup). -/
def timestamped (moods : List Obs) : List (String × ℤ) :=
  moods.filterMap (fun e => e.timestamp.map (fun t => (e.mood, t)))

/-- `MoodAnalytics.get_daily_patterns`: 24 hour-of-day buckets after the UTC-3
shift, rounded average or `None` per bucket. -/
def get_daily_patterns (moods : List Obs) : Option (List (Option ℚ)) :=
  match (timestamped moods).mapM
      (fun p => (moodValue? p.1).map (fun v => (chileHour p.2, v))) with
  | none => none
  | some pairs =>
    some ((List.range 24).map (fun h =>
      let vs := (pairs.filter (fun p => decide (p.1 = (h : ℤ)))).map Prod.snd
      if vs = [] then none else some (round2 (mean vs))))

/-- One plotted point of `get_daily_patterns_for_date`: fractional-hour
position `hour + minute / 60` and the mood value. -/
structure DayPoint where
  x : ℚ
  y : ℚ
deriving DecidableEq, Repr

/-- The single-date core of `MoodAnalytics.get_daily_patterns_for_date`:
keep the timestamped entries whose shifted local date equals the target day,
sort them by local time, and emit the precisely positioned mood points
(the strict label lookup runs after the filter, on the kept entries only). -/
def get_daily_patterns_for_date (target : ℤ) (moods : List Obs) :
    Option (List DayPoint) :=
  let filtered := (timestamped moods).filter (fun p => decide (chileDay p.2 = target))
  let sorted := filtered.mergeSort (fun a b => decide (toChileTime a.2 ≤ toChileTime b.2))
  sorted.mapM (fun p => (moodValue? p.1).map (fun v =>
    ⟨((toChileTime p.2 % 1440 : ℤ) : ℚ) / 60, v⟩))

/-- The result shape of one week of `FourWeekComparisonService._group_by_weeks`. -/
structure WeekRec where
  data : List (Option ℚ)
  average : Option ℚ
  entries_count : ℕ
deriving DecidableEq, Repr

/-- The lenient lookup of `FourWeekComparisonService`
(`MOOD_VALUES.get(row['mood'].lower(), 4)`). -/
def fourWeekValue (s : String) : ℚ := (moodValue? (pyLower s)).getD 4

/-- The rows of a week window, the window given by ordinal day numbers
(Python date comparison is ordinal comparison). -/
def weekWindow (week_start week_end : ℤ) (rows : List Obs) : List Obs :=
  rows.filter (fun r =>
    decide (week_start ≤ (r.date.toordinal : ℤ) ∧ (r.date.toordinal : ℤ) ≤ week_end))

/-- The single-row step of the per-week loop of `_group_by_weeks`: a matching
row overwrites its weekday slot and is appended to the entry list. -/
def weekStep (week_start week_end : ℤ) (st : List (Option ℚ) × List ℚ) (r : Obs) :
    List (Option ℚ) × List ℚ :=
  if week_start ≤ (r.date.toordinal : ℤ) ∧ (r.date.toordinal : ℤ) ≤ week_end then
    (st.1.set r.date.weekday (some (fourWeekValue r.mood)), st.2 ++ [fourWeekValue r.mood])
  else st

/-- One week record of `FourWeekComparisonService._group_by_weeks`: 7 Mon..Sun
slots (`[None] * 7`, last write wins), truthiness-guarded rounded average, and
the count of all the window's rows. -/
def buildWeek (week_start week_end : ℤ) (rows : List Obs) : WeekRec :=
  let fin := rows.foldl (weekStep week_start week_end) (List.replicate 7 none, [])
  let week_average := if fin.2 = [] then none else some (mean fin.2)
  ⟨fin.1,
   (match week_average with
    | none => none
    | some a => if a = 0 then none else some (round1 a)),
   fin.2.length⟩

/-- `FourWeekComparisonService._group_by_weeks`: the four week windows ending
at `today`'s week, built over the same row list, reversed to oldest-first. -/
def group_by_weeks (today : CivilDate) (rows : List Obs) : List WeekRec :=
  ((List.range 4).map (fun week_offset =>
    let days_back : ℤ := (today.weekday : ℤ) + 7 * week_offset
    let week_start := (today.toordinal : ℤ) - days_back
    buildWeek week_start (week_start + 6) rows)).reverse

/-- One joined row of the trigger-correlation query:
`SELECT m.mood, t.name as tag_name, t.category`. -/
structure TagRow where
  mood : String
  tag_name : String
  category : String
deriving DecidableEq, Repr

/-- One record of the `MoodAnalyzer.get_trigger_correlations` result. -/
structure TagCorr where
  tag : String
  category : String
  average_mood : ℚ
  frequency : ℕ
  impact : String
deriving DecidableEq, Repr

/-- `MoodAnalyzer._calculate_impact`: Positive at average `>= 5.5`,
Negative at `<= 3.5`, else Neutral. -/
def calculate_impact (avg_mood : ℚ) : String :=
  if 11/2 ≤ avg_mood then ("Positive") else if avg_mood ≤ 7/2 then ("Negative")
  else ("Neutral")

/-- `MoodAnalyzer.get_trigger_correlations` over the fetched join rows: group
by tag name (category fixed at first sight, values appended in order), keep
tags with at least 1 observation, report the rounded average, the frequency
and the impact of the raw average, sorted by `(frequency, average_mood)`
descending. -/
def get_trigger_correlations (mood_tags : List TagRow) : List TagCorr :=
  if mood_tags = [] then [] else
  let correlations :=
    groupByKey TagRow.tag_name (fun r => (mood_to_numeric r.mood, r.category)) mood_tags
  let result := correlations.filterMap (fun p =>
    if 1 ≤ p.2.length then
      let avg_mood := mean (p.2.map Prod.fst)
      some ⟨p.1, ((p.2.head?.map Prod.snd).getD ("")), round2 avg_mood, p.2.length,
            calculate_impact avg_mood⟩
    else none)
  result.mergeSort (fun a b =>
    decide (b.frequency < a.frequency ∨
      (b.frequency = a.frequency ∧ b.average_mood ≤ a.average_mood)))

/-- The mood values carried by one tag's rows. -/
def tagValues (rows : List TagRow) (t : String) : List ℚ :=
  (rows.filter (fun r => decide (r.tag_name = t))).map (fun r => mood_to_numeric r.mood)

/-- An observation list holding an unrecognized mood label. -/
def badLabelMoods : List Obs := [⟨"happy", ⟨2025, 10, 10⟩, none⟩]

/-- The mood list of the repository's own test
`test_calculate_streak_mixed_moods`, most recent first: good, good, bad, good. -/
def mixedMoods : List Obs :=
  [⟨"well", ⟨2025, 10, 10⟩, none⟩,
   ⟨"slightly well", ⟨2025, 10, 9⟩, none⟩,
   ⟨"bad", ⟨2025, 10, 8⟩, none⟩,
   ⟨"well", ⟨2025, 10, 7⟩, none⟩]

/-- Five entries on five distinct consecutive days with mood values
7, 6, 4, 2, 1 (the spec's daily-averages example). -/
def fiveDayMoods : List Obs :=
  [⟨"very well", ⟨2025, 3, 1⟩, none⟩,
   ⟨"well", ⟨2025, 3, 2⟩, none⟩,
   ⟨"neutral", ⟨2025, 3, 3⟩, none⟩,
   ⟨"bad", ⟨2025, 3, 4⟩, none⟩,
   ⟨"very bad", ⟨2025, 3, 5⟩, none⟩]

/-- Three entries with two of them on the same civil date. -/
def dupDateMoods : List Obs :=
  [⟨"well", ⟨2025, 3, 1⟩, none⟩,
   ⟨"bad", ⟨2025, 3, 1⟩, none⟩,
   ⟨"neutral", ⟨2025, 3, 2⟩, none⟩]

/-- A tag seen on three observations with mood values 6, 6, 7. -/
def exerciseRows : List TagRow :=
  [⟨"well", "exercise", "health"⟩,
   ⟨"well", "exercise", "health"⟩,
   ⟨"very well", "exercise", "health"⟩]

/-- The canonical form of the grouping dict: one pair per distinct key, whose
value list is the filtered-and-mapped input. -/
def canonGroup {α κ β : Type} [DecidableEq κ] (key : α → κ) (val : α → β) (l : List α) :
    List (κ × List β) :=
  ((l.map key).dedup).map
    (fun k => (k, (l.filter (fun a => decide (key a = k))).map val))

theorem mapM_option_eq_map {α β : Type} {f : α → Option β} {g : α → β} :
    ∀ {l : List α}, (∀ a ∈ l, f a = some (g a)) → l.mapM f = some (l.map g) := by
  intro l
  induction l with
  | nil => intro _; rfl
  | cons a l ih =>
    intro h
    rw [List.mapM_cons, h a (by simp), ih (fun b hb => h b (by simp [hb]))]
    rfl

theorem mean_perm {l1 l2 : List ℚ} (h : l1.Perm l2) : mean l1 = mean l2 := by
  rw [mean, mean, h.sum_eq, h.length_eq]

theorem dictAppend_keys {κ β : Type} [DecidableEq κ] (acc : List (κ × List β)) (k : κ)
    (v : β) :
    (dictAppend acc k v).map Prod.fst =
      if k ∈ acc.map Prod.fst then acc.map Prod.fst else acc.map Prod.fst ++ [k] := by
  unfold dictAppend
  split
  · rw [List.map_map]
    refine List.map_congr_left ?_
    intro p _
    by_cases hpk : p.1 = k <;> simp [hpk]
  · simp

theorem groupByKey_append {α κ β : Type} [DecidableEq κ] (key : α → κ) (val : α → β)
    (l : List α) (a : α) :
    groupByKey key val (l ++ [a]) = dictAppend (groupByKey key val l) (key a) (val a) := by
  simp [groupByKey, List.foldl_append]

theorem groupByKey_keys_mem {α κ β : Type} [DecidableEq κ] (key : α → κ) (val : α → β)
    (l : List α) : ∀ k : κ, k ∈ (groupByKey key val l).map Prod.fst ↔ k ∈ l.map key := by
  induction l using List.reverseRecOn with
  | nil => simp [groupByKey]
  | append_singleton l a ih =>
    intro k
    rw [groupByKey_append, dictAppend_keys]
    by_cases hmem : key a ∈ (groupByKey key val l).map Prod.fst
    · rw [if_pos hmem, ih]
      have hka := (ih (key a)).mp hmem
      simp only [List.map_append, List.mem_append, List.map_cons, List.map_nil,
        List.mem_singleton]
      constructor
      · exact Or.inl
      · rintro (h | h)
        · exact h
        · exact h ▸ hka
    · rw [if_neg hmem]
      simp [ih, List.map_append]

theorem groupByKey_keys_nodup {α κ β : Type} [DecidableEq κ] (key : α → κ) (val : α → β)
    (l : List α) : ((groupByKey key val l).map Prod.fst).Nodup := by
  induction l using List.reverseRecOn with
  | nil => simp [groupByKey]
  | append_singleton l a ih =>
    rw [groupByKey_append, dictAppend_keys]
    by_cases hmem : key a ∈ (groupByKey key val l).map Prod.fst
    · rwa [if_pos hmem]
    · rw [if_neg hmem]
      simp [List.nodup_append, ih, hmem]

theorem groupByKey_values {α κ β : Type} [DecidableEq κ] (key : α → κ) (val : α → β)
    (l : List α) : ∀ (k : κ) (vs : List β), (k, vs) ∈ groupByKey key val l →
      vs = (l.filter (fun a => decide (key a = k))).map val := by
  induction l using List.reverseRecOn with
  | nil => simp [groupByKey]
  | append_singleton l a ih =>
    intro k vs hmem
    rw [groupByKey_append] at hmem
    unfold dictAppend at hmem
    by_cases hka : key a ∈ (groupByKey key val l).map Prod.fst
    · rw [if_pos hka] at hmem
      obtain ⟨p, hp, hpe⟩ := List.mem_map.mp hmem
      by_cases hp1 : p.1 = key a
      · rw [if_pos hp1] at hpe
        obtain ⟨hk, hv⟩ := Prod.mk.injEq .. ▸ hpe
        have hvals := ih p.1 p.2 hp
        subst hk
        rw [← hv, hvals, List.filter_append, List.map_append]
        have : (List.filter (fun b => decide (key b = p.1)) [a]) = [a] := by
          simp [hp1]
        rw [this]
        rfl
      · rw [if_neg hp1] at hpe
        have hk : p.1 = k := congrArg Prod.fst hpe
        have hv : p.2 = vs := congrArg Prod.snd hpe
        have hvals := ih p.1 p.2 hp
        have hne : ¬ key a = k := fun he => hp1 (hk.trans he.symm)
        rw [← hv, hvals, List.filter_append]
        have : (List.filter (fun b => decide (key b = k)) [a]) = [] := by
          simp [hne]
        rw [hk, this, List.append_nil]
    · rw [if_neg hka] at hmem
      rcases List.mem_append.mp hmem with h | h
      · have hkmem : k ∈ (groupByKey key val l).map Prod.fst :=
          List.mem_map.mpr ⟨(k, vs), h, rfl⟩
        have hne : ¬ (key a = k) := fun he => hka (he ▸ hkmem)
        have hvals := ih k vs h
        rw [hvals, List.filter_append]
        have : (List.filter (fun b => decide (key b = k)) [a]) = [] := by
          simp [hne]
        rw [this, List.append_nil]
      · have hpe : k = key a ∧ vs = [val a] := by simpa using h
        obtain ⟨hk, hv⟩ := hpe
        have hnotin : key a ∉ l.map key := fun hm =>
          hka ((groupByKey_keys_mem key val l (key a)).mpr hm)
        have hfilt : (List.filter (fun b => decide (key b = k)) l) = [] := by
          rw [List.filter_eq_nil_iff]
          intro b hb hdec
          have hba : key b = key a := hk ▸ (by simpa using hdec)
          exact hnotin (hba ▸ List.mem_map_of_mem key hb)
        rw [hv, List.filter_append, hfilt]
        simp [hk]

theorem groupByKey_mem_of_key_mem {α κ β : Type} [DecidableEq κ] (key : α → κ)
    (val : α → β) (l : List α) (k : κ) (h : k ∈ l.map key) :
    (k, (l.filter (fun a => decide (key a = k))).map val) ∈ groupByKey key val l := by
  have h2 := (groupByKey_keys_mem key val l k).mpr h
  obtain ⟨p, hp, hpk⟩ := List.mem_map.mp h2
  have hv := groupByKey_values key val l p.1 p.2 hp
  have hpe : p = (k, (l.filter (fun a => decide (key a = k))).map val) := by
    rw [← hpk, ← hv]
  exact hpe ▸ hp

theorem groupByKey_perm_canon {α κ β : Type} [DecidableEq κ] (key : α → κ) (val : α → β)
    (l : List α) : (groupByKey key val l).Perm (canonGroup key val l) := by
  have hnd1 : (groupByKey key val l).Nodup :=
    List.Nodup.of_map Prod.fst (groupByKey_keys_nodup key val l)
  have hinj : Function.Injective
      (fun k : κ => (k, (l.filter (fun a => decide (key a = k))).map val)) := by
    intro x y hxy
    exact congrArg Prod.fst hxy
  have hnd2 : (canonGroup key val l).Nodup :=
    List.Nodup.map hinj (List.nodup_dedup (l.map key))
  refine (List.perm_ext_iff_of_nodup hnd1 hnd2).mpr ?_
  intro p
  constructor
  · intro hp
    have hk : p.1 ∈ (groupByKey key val l).map Prod.fst := List.mem_map_of_mem Prod.fst hp
    have hkl : p.1 ∈ l.map key := (groupByKey_keys_mem key val l p.1).mp hk
    have hv := groupByKey_values key val l p.1 p.2 hp
    refine List.mem_map.mpr ⟨p.1, List.mem_dedup.mpr hkl, ?_⟩
    rw [← hv]
  · intro hp
    obtain ⟨k, hk, hke⟩ := List.mem_map.mp hp
    have hkl : k ∈ l.map key := List.mem_dedup.mp hk
    exact hke ▸ groupByKey_mem_of_key_mem key val l k hkl

theorem perm_nil_iff {α : Type} {x y : List α} (hp : x.Perm y) : x = [] ↔ y = [] := by
  constructor
  · intro hh
    apply List.eq_nil_of_length_eq_zero
    rw [← hp.length_eq, hh]
    rfl
  · intro hh
    apply List.eq_nil_of_length_eq_zero
    rw [hp.length_eq, hh]
    rfl

theorem if_nil_round2_congr {x y : List ℚ} (hp : x.Perm y) :
    (if x = [] then (0 : ℚ) else round2 (mean x))
      = (if y = [] then (0 : ℚ) else round2 (mean y)) := by
  by_cases hd : x = []
  · rw [if_pos hd, if_pos ((perm_nil_iff hp).mp hd)]
  · rw [if_neg hd, if_neg (fun hh => hd ((perm_nil_iff hp).mpr hh)), mean_perm hp]

theorem daily_averages_perm (moods : List Obs) :
    ((groupByKey Prod.fst Prod.snd
        (moods.map (fun e => (e.date, MoodType.get_value e.mood)))).map
      (fun p => mean p.2)).Perm
    ((specDates moods).map (specDayAverage moods)) := by
  have h1 := (groupByKey_perm_canon Prod.fst Prod.snd
    (moods.map (fun e => (e.date, MoodType.get_value e.mood)))).map
    (fun p : CivilDate × List ℚ => mean p.2)
  have h2 : (canonGroup Prod.fst Prod.snd
      (moods.map (fun e => (e.date, MoodType.get_value e.mood)))).map
      (fun p : CivilDate × List ℚ => mean p.2)
      = (specDates moods).map (specDayAverage moods) := by
    rw [canonGroup, List.map_map]
    have hkeys : (moods.map (fun e => (e.date, MoodType.get_value e.mood))).map Prod.fst
        = moods.map Obs.date := by
      rw [List.map_map]
      rfl
    rw [hkeys]
    unfold specDates
    refine List.map_congr_left ?_
    intro d _
    show mean (((moods.map (fun e => (e.date, MoodType.get_value e.mood))).filter
      (fun p => decide (p.1 = d))).map Prod.snd) = specDayAverage moods d
    rw [List.filter_map, List.map_map]
    rfl
  rw [← h2]
  exact h1

theorem calculate_averages_eq_spec (moods : List Obs) (h : validMoods moods) :
    calculate_averages moods = some (specAverages moods) := by
  by_cases hnil : moods = []
  · subst hnil
    rfl
  · have hmapM : moods.mapM (fun e => (moodValue? e.mood).map (fun v => (e.date, v)))
        = some (moods.map (fun e => (e.date, MoodType.get_value e.mood))) := by
      apply mapM_option_eq_map
      intro e he
      obtain ⟨v, hv⟩ := Option.isSome_iff_exists.mp (h e he)
      rw [hv]
      simp [MoodType.get_value, hv]
    have hperm := daily_averages_perm moods
    have hgoodperm := hperm.filter (fun a => decide (5 ≤ a))
    have hbadeq : ((groupByKey Prod.fst Prod.snd
          (moods.map (fun e => (e.date, MoodType.get_value e.mood)))).map
          (fun p => mean p.2)).filter (fun a => decide (¬ 5 ≤ a ∧ a ≤ 3))
        = ((groupByKey Prod.fst Prod.snd
          (moods.map (fun e => (e.date, MoodType.get_value e.mood)))).map
          (fun p => mean p.2)).filter (fun a => decide (a ≤ 3)) := by
      refine List.filter_congr ?_
      intro a _
      by_cases h3 : a ≤ 3
      · have h5 : ¬ 5 ≤ a := by linarith
        simp [h3, h5]
      · simp [h3]
    have hbadperm := hbadeq ▸ hperm.filter (fun a => decide (a ≤ 3))
    unfold calculate_averages
    rw [if_neg hnil, hmapM]
    simp only [Option.some.injEq, Averages.mk.injEq, specAverages]
    exact ⟨if_nil_round2_congr hperm, if_nil_round2_congr hgoodperm,
      by
        rw [hbadeq]
        exact if_nil_round2_congr (hperm.filter (fun a => decide (a ≤ 3))),
      hperm.length_eq⟩

theorem get_value_default (s : String) (hs : s ∉ moodLabels) : MoodType.get_value s = 4 := by
  simp only [moodLabels, List.mem_cons, List.not_mem_nil, or_false, not_or] at hs
  obtain ⟨h1, h2, h3, h4, h5, h6, h7⟩ := hs
  have e1 : (s == "very bad") = false := beq_eq_false_iff_ne.mpr h1
  have e2 : (s == "bad") = false := beq_eq_false_iff_ne.mpr h2
  have e3 : (s == "slightly bad") = false := beq_eq_false_iff_ne.mpr h3
  have e4 : (s == "neutral") = false := beq_eq_false_iff_ne.mpr h4
  have e5 : (s == "slightly well") = false := beq_eq_false_iff_ne.mpr h5
  have e6 : (s == "well") = false := beq_eq_false_iff_ne.mpr h6
  have e7 : (s == "very well") = false := beq_eq_false_iff_ne.mpr h7
  simp [MoodType.get_value, moodValue?, MOOD_VALUES, List.lookup, e1, e2, e3, e4, e5, e6, e7]

theorem streakLoop_isSome (l : List Obs) (h : ∀ e ∈ l, (moodValue? e.mood).isSome) :
    (streakLoop l).isSome := by
  induction l with
  | nil => rfl
  | cons e rest ih =>
    obtain ⟨v, hv⟩ := Option.isSome_iff_exists.mp (h e (by simp))
    simp only [streakLoop, hv]
    by_cases h5 : 5 ≤ v
    · rw [if_pos h5]
      have hrest := ih (fun b hb => h b (by simp [hb]))
      obtain ⟨n, hn⟩ := Option.isSome_iff_exists.mp hrest
      rw [hn]
      rfl
    · rw [if_neg h5]
      rfl

/-- C1 amended: `MoodType.get_value` maps the i-th mood label to `i + 1` (a
strict monotonic bijection of the seven distinct labels onto 1..7) and any
other string to 4; the analyzer-side lenient lookup also defaults to 4; but
the `MoodAnalytics` operations complete (return `some`) when every label of
the list is recognized — an unrecognized label makes their strict dict
indexing raise, as the counterexample shows. -/
theorem claim_C1 :
    moodLabels.map MoodType.get_value = [1, 2, 3, 4, 5, 6, 7] ∧
    moodLabels.Nodup ∧
    (∀ s : String, s ∉ moodLabels → MoodType.get_value s = 4) ∧
    (∀ s : String, pyLower s ∉ moodLabels → mood_to_numeric s = 4) ∧
    (∀ moods : List Obs, validMoods moods →
      (calculate_streak moods).isSome ∧ (calculate_averages moods).isSome) := by
  refine ⟨by decide, by decide, get_value_default,
    fun s hs => get_value_default (pyLower s) hs, ?_⟩
  intro moods h
  constructor
  · exact streakLoop_isSome moods.reverse (fun e he => h e (List.mem_reverse.mp he))
  · rw [calculate_averages_eq_spec moods h]
    rfl

/-- C1 as stated is false: `MoodAnalytics.calculate_streak` on a list holding
the unrecognized label "happy" does not complete — the strict
`MOOD_VALUES[...]` indexing raises a `KeyError`, modelled as `none`. -/
theorem claim_C1_counterexample : calculate_streak badLabelMoods = none := by decide

/-- C1 witness: the amended theorem applied at concrete inputs. -/
theorem claim_C1_witness :
    MoodType.get_value ("completely unknown") = 4 ∧ (calculate_streak fiveDayMoods).isSome :=
  ⟨claim_C1.2.2.1 ("completely unknown") (by decide),
   (claim_C1.2.2.2.2 fiveDayMoods (by decide)).1⟩

/-- C2: on the repository's own test input (most recent first: values
6, 5, 2, 6), `calculate_streak` returns 1 — it iterates `reversed(self.moods)`
and so counts from the oldest entry — while the specified streak (count of
leading good entries from the most recent) is 2, the value the repository's
test `test_calculate_streak_mixed_moods` asserts. -/
theorem claim_C2 : calculate_streak mixedMoods = some 1 ∧ streakSpec mixedMoods = 2 := by
  decide

/-- C3: `calculate_averages` computes exactly the spec's daily-averages report
(group by civil date, mean per date, mean of the per-date means, good/bad
subsets at thresholds 5 and 3, rounded to 2 decimals, 0 for empty subsets)
whenever every label is recognized; on the spec's five-day example it returns
daily 4.0, good_days 6.5, bad_days 1.5, total_entries 5. -/
theorem claim_C3 :
    (∀ moods : List Obs, validMoods moods →
      calculate_averages moods = some (specAverages moods)) ∧
    calculate_averages fiveDayMoods = some ⟨4, 13/2, 3/2, 5⟩ := by
  refine ⟨calculate_averages_eq_spec, ?_⟩
  rw [calculate_averages_eq_spec fiveDayMoods (by decide)]
  have hd : specDates fiveDayMoods
      = [⟨2025, 3, 1⟩, ⟨2025, 3, 2⟩, ⟨2025, 3, 3⟩, ⟨2025, 3, 4⟩, ⟨2025, 3, 5⟩] := by decide
  have hda : (specDates fiveDayMoods).map (specDayAverage fiveDayMoods)
      = [7, 6, 4, 2, 1] := by
    rw [hd]
    simp [specDayAverage, fiveDayMoods, mean, MoodType.get_value, moodValue?,
      MOOD_VALUES, List.lookup]
  refine congrArg some ?_
  unfold specAverages
  rw [hda]
  norm_num [mean, round2, pyRound]
  refine ⟨?_, ?_, ?_⟩ <;> simp

/-- C3 witness: the refinement applied to the concrete five-day example. -/
theorem claim_C3_witness :
    calculate_averages fiveDayMoods = some (specAverages fiveDayMoods) :=
  claim_C3.1 fiveDayMoods (by decide)

/-- C9: the `total_entries` field of `calculate_averages` is the number of
distinct civil dates, so it equals the list length exactly when all dates are
distinct, and is strictly smaller whenever some date carries two or more
entries. -/
theorem claim_C9 : ∀ moods : List Obs, validMoods moods →
    (calculate_averages moods).map Averages.total_entries
        = some ((moods.map Obs.date).dedup.length) ∧
    ((moods.map Obs.date).Nodup →
      (calculate_averages moods).map Averages.total_entries = some moods.length) ∧
    (¬ (moods.map Obs.date).Nodup →
      (moods.map Obs.date).dedup.length < moods.length) := by
  intro moods h
  have htot : (calculate_averages moods).map Averages.total_entries
      = some ((moods.map Obs.date).dedup.length) := by
    rw [calculate_averages_eq_spec moods h]
    simp [specAverages, specDates]
  refine ⟨htot, ?_, ?_⟩
  · intro hnd
    rw [htot, List.dedup_eq_self.mpr hnd, List.length_map]
  · intro hnd
    have hsub := List.dedup_sublist (moods.map Obs.date)
    have hne : (moods.map Obs.date).dedup.length ≠ (moods.map Obs.date).length :=
      fun he => hnd (List.dedup_eq_self.mp (hsub.eq_of_length he))
    have hlt := lt_of_le_of_ne hsub.length_le hne
    simpa [List.length_map] using hlt

/-- C9 witness: on a list with a duplicated date, `total_entries` is the
distinct-date count 2, strictly below the 3 observations. -/
theorem claim_C9_witness :
    (calculate_averages dupDateMoods).map Averages.total_entries = some 2 ∧
    (dupDateMoods.map Obs.date).dedup.length < dupDateMoods.length := by
  have h := claim_C9 dupDateMoods (by decide)
  refine ⟨?_, h.2.2 (by decide)⟩
  have h1 := h.1
  rwa [show ((dupDateMoods.map Obs.date).dedup.length) = 2 from by decide] at h1

theorem filterMap_sublist_map {α β : Type} (f : α → Option β) (h : α → β)
    (hf : ∀ a b, f a = some b → b = h a) :
    ∀ l : List α, (l.filterMap f).Sublist (l.map h) := by
  intro l
  induction l with
  | nil => simp
  | cons a t ih =>
    rw [List.map_cons, List.filterMap_cons]
    cases hfa : f a with
    | none => exact ih.cons _
    | some b =>
      rw [hf a b hfa]
      exact ih.cons₂ _

theorem sum_sq_zero {l : List ℚ} {c : ℚ} (h : (l.map (fun x => (x - c) ^ 2)).sum = 0) :
    ∀ x ∈ l, x = c := by
  induction l with
  | nil => simp
  | cons a t ih =>
    rw [List.map_cons, List.sum_cons] at h
    have ha : (0:ℚ) ≤ (a - c) ^ 2 := sq_nonneg _
    have ht : (0:ℚ) ≤ (t.map (fun x => (x - c) ^ 2)).sum :=
      List.sum_nonneg (by
        intro x hx
        obtain ⟨y, _, hy⟩ := List.mem_map.mp hx
        rw [← hy]
        exact sq_nonneg _)
    have ha0 : (a - c) ^ 2 = 0 := by linarith
    have ht0 : (t.map (fun x => (x - c) ^ 2)).sum = 0 := by linarith
    intro x hx
    rcases List.mem_cons.mp hx with hxa | hxt
    · have hsub : x - c = 0 := by
        rw [hxa]
        exact sq_eq_zero_iff.mp ha0
      linarith
    · exact ih ht0 x hxt

theorem validPts_fst_nodup (data : List (Option ℚ)) :
    ((validPts data).map Prod.fst).Nodup := by
  rw [validPts, List.map_filterMap]
  have heq : (fun p : ℕ × Option ℚ =>
      (p.2.map (fun y => ((p.1 : ℚ), y))).map Prod.fst)
      = fun p : ℕ × Option ℚ => p.2.map (fun _ => (p.1 : ℚ)) := by
    funext p
    cases p.2 <;> rfl
  rw [heq]
  have hsub := filterMap_sublist_map
    (fun p : ℕ × Option ℚ => p.2.map (fun _ => (p.1 : ℚ)))
    (fun p : ℕ × Option ℚ => (p.1 : ℚ))
    (by
      intro p b hb
      cases hp : p.2 with
      | none => simp [hp] at hb
      | some y =>
        simp [hp] at hb
        exact hb.symm)
    data.enum
  have hnd : (data.enum.map (fun p : ℕ × Option ℚ => (p.1 : ℚ))).Nodup := by
    have hcomp : data.enum.map (fun p : ℕ × Option ℚ => (p.1 : ℚ))
        = (data.enum.map Prod.fst).map (fun n : ℕ => (n : ℚ)) := by
      rw [List.map_map]
      rfl
    rw [hcomp, List.enum_map_fst]
    exact (List.nodup_range _).map Nat.cast_injective
  exact hnd.sublist hsub

/-- C4 as stated is false: on the one-point series `[4]` the code returns
intercept 0, not the mean (4) of the valid values the claim requires. -/
theorem claim_C4_counterexample :
    (calculate_linear_regression [some 4]).intercept = 0 ∧ specValidMean [some 4] = 4 ∧
    (calculate_linear_regression [some 4]).intercept ≠ specValidMean [some 4] := by
  have hc : calculate_linear_regression [some 4] = ⟨0, 0, CorrVal.zero⟩ := rfl
  have hlist : List.filterMap id [some (4:ℚ)] = [4] := rfl
  have hv : specValidMean [some 4] = 4 := by
    unfold specValidMean
    rw [hlist]
    norm_num [mean]
  refine ⟨by rw [hc], hv, ?_⟩
  rw [hc, hv]
  norm_num

/-- C4 amended: the regression never raises (it is a total function); `None`
entries are skipped via `validPts`; with fewer than 2 valid points it returns
slope 0, correlation 0 and intercept 0 (not the mean of the valid values);
whenever the dependent values have zero variance the correlation is the
literal 0; and the zero-x-variance branch that would return the mean as
intercept is unreachable, since with 2 or more valid points the distinct
indices give the independent variable nonzero variance. -/
theorem claim_C4 : ∀ data : List (Option ℚ),
    ((validPts data).length < 2 →
      calculate_linear_regression data = ⟨0, 0, CorrVal.zero⟩) ∧
    (yVar data = 0 → (calculate_linear_regression data).correlation = CorrVal.zero) ∧
    (2 ≤ (validPts data).length → xDen data ≠ 0) := by
  intro data
  refine ⟨?_, ?_, ?_⟩
  · intro h
    unfold calculate_linear_regression
    by_cases h1 : data = [] ∨ data.length < 2
    · rw [if_pos h1]
    · rw [if_neg h1, if_pos h]
  · intro h
    unfold calculate_linear_regression
    by_cases h1 : data = [] ∨ data.length < 2
    · rw [if_pos h1]
    · rw [if_neg h1]
      by_cases h2 : (validPts data).length < 2
      · rw [if_pos h2]
      · rw [if_neg h2]
        by_cases h3 : xDen data = 0
        · rw [if_pos h3]
        · rw [if_neg h3]
          simp [h]
  · intro h2 hden
    have hall := sum_sq_zero (c := xMean data) hden
    have hlen : 2 ≤ ((validPts data).map Prod.fst).length := by
      rw [List.length_map]
      exact h2
    have hnd := validPts_fst_nodup data
    rcases hxs : (validPts data).map Prod.fst with _ | ⟨x1, _ | ⟨x2, r⟩⟩
    · rw [hxs] at hlen
      exact absurd hlen (by simp)
    · rw [hxs] at hlen
      exact absurd hlen (by simp)
    · rw [hxs] at hall hnd
      have h1 : x1 = xMean data := hall x1 (by simp)
      have hx2 : x2 = xMean data := hall x2 (by simp)
      have : x1 ≠ x2 := by
        rw [List.nodup_cons] at hnd
        exact fun he => hnd.1 (he ▸ List.mem_cons_self x2 r)
      exact this (h1.trans hx2.symm)

/-- C4 witness: the amended theorem applied at the one-point series. -/
theorem claim_C4_witness :
    calculate_linear_regression [some 4] = ⟨0, 0, CorrVal.zero⟩ :=
  (claim_C4 [some 4]).1 (by decide)

/-- C5: the trend line has the same length as the series, is `None` exactly at
the indices where the series is `None`, and at every present index holds the
fitted value `slope * i + intercept` clamped into `[1, 7]` and rounded to 2
decimals. -/
theorem claim_C5 : ∀ (data : List (Option ℚ)) (reg : Regression) (i : ℕ),
    (generate_trend_line_data data reg).length = data.length ∧
    ((generate_trend_line_data data reg)[i]? = some none ↔ data[i]? = some none) ∧
    (∀ v : ℚ, data[i]? = some (some v) →
      (generate_trend_line_data data reg)[i]?
        = some (some (round2 (max 1 (min 7 (reg.slope * (i : ℚ) + reg.intercept)))))) := by
  intro data reg i
  by_cases hnil : data = []
  · subst hnil
    refine ⟨rfl, by simp [generate_trend_line_data], ?_⟩
    intro v hv
    simp at hv
  · unfold generate_trend_line_data
    rw [if_neg hnil]
    refine ⟨by simp, ?_, ?_⟩
    · rw [List.getElem?_map, List.getElem?_enum]
      cases hd : data[i]? with
      | none => simp
      | some o => cases o <;> simp
    · intro v hv
      rw [List.getElem?_map, List.getElem?_enum, hv]
      rfl

/-- C5 witness: on the series `[some 2, none]` with slope 1 and intercept 0,
index 0 carries the clamped rounded fit and index 1 keeps the gap. -/
theorem claim_C5_witness :
    (generate_trend_line_data [some 2, none] ⟨1, 0, CorrVal.zero⟩)[0]? = some (some 1) ∧
    ((generate_trend_line_data [some 2, none] ⟨1, 0, CorrVal.zero⟩)[1]? = some none) := by
  constructor
  · have h := (claim_C5 [some 2, none] ⟨1, 0, CorrVal.zero⟩ 0).2.2 2 rfl
    rw [h]
    norm_num [round2, pyRound]
  · exact (claim_C5 [some 2, none] ⟨1, 0, CorrVal.zero⟩ 1).2.1.mpr rfl

/-- C6: the two period reports have different empty-bucket contracts, and each
holds. The weekly pattern for a period emits `None` with count 0 in each
weekday slot without observations and a non-null average in each slot with
some; the monthly pattern for a year emits the literal 0 in each month slot
without observations. -/
theorem claim_C6 :
    (∀ (sd ed : CivilDate) (moods : List Obs),
      (∀ e ∈ periodObs sd ed moods, (moodValue? e.mood).isSome) → ∀ d : Fin 7,
      ((get_weekly_patterns_for_period sd ed moods).bind (fun w => w.data[d.val]?)
          = some none ↔ periodDayObs sd ed moods d.val = []) ∧
      ((get_weekly_patterns_for_period sd ed moods).bind (fun w => w.counts[d.val]?)
          = some (periodDayObs sd ed moods d.val).length) ∧
      (periodDayObs sd ed moods d.val ≠ [] → ∃ q : ℚ,
        (get_weekly_patterns_for_period sd ed moods).bind (fun w => w.data[d.val]?)
          = some (some q))) ∧
    (∀ (year : ℕ) (moods : List Obs),
      (∀ e ∈ yearObs year moods, (moodValue? e.mood).isSome) → ∀ m : Fin 12,
      monthObs year moods (m.val + 1) = [] →
        (get_monthly_trends_for_year year moods).bind (fun l => l[m.val]?) = some 0) := by
  constructor
  · intro sd ed moods hval d
    have hmapM : (periodObs sd ed moods).mapM
        (fun e => (moodValue? e.mood).map (fun v => (e.date.weekday, v)))
        = some ((periodObs sd ed moods).map
          (fun e => (e.date.weekday, MoodType.get_value e.mood))) := by
      apply mapM_option_eq_map
      intro e he
      obtain ⟨v, hv⟩ := Option.isSome_iff_exists.mp (hval e he)
      rw [hv]
      simp [MoodType.get_value, hv]
    unfold get_weekly_patterns_for_period
    rw [hmapM]
    simp only [Option.some_bind, List.getElem?_map, List.getElem?_range d.isLt,
      Option.map_some']
    have hvs : (((periodObs sd ed moods).map
          (fun e => (e.date.weekday, MoodType.get_value e.mood))).filter
          (fun p => decide (p.1 = d.val))).map Prod.snd
        = (periodDayObs sd ed moods d.val).map (fun e => MoodType.get_value e.mood) := by
      rw [List.filter_map, List.map_map]
      rfl
    rw [hvs]
    by_cases he : periodDayObs sd ed moods d.val = []
    · refine ⟨by simp [he], by simp [he], fun hne => absurd he hne⟩
    · have hmne : (periodDayObs sd ed moods d.val).map
          (fun e => MoodType.get_value e.mood) ≠ [] := by
        intro hm
        exact he (List.map_eq_nil_iff.mp hm)
      refine ⟨by simp [hmne, he], by simp, ?_⟩
      intro _
      refine ⟨round2 (mean ((periodDayObs sd ed moods d.val).map
        (fun e => MoodType.get_value e.mood))), ?_⟩
      simp [hmne]
  · intro year moods hval m hempty
    have hmapM : (yearObs year moods).mapM
        (fun e => (moodValue? e.mood).map (fun v => (e.date.month, v)))
        = some ((yearObs year moods).map
          (fun e => (e.date.month, MoodType.get_value e.mood))) := by
      apply mapM_option_eq_map
      intro e he
      obtain ⟨v, hv⟩ := Option.isSome_iff_exists.mp (hval e he)
      rw [hv]
      simp [MoodType.get_value, hv]
    unfold get_monthly_trends_for_year
    rw [hmapM]
    simp only [Option.some_bind, List.getElem?_map, List.getElem?_range m.isLt,
      Option.map_some']
    have hvs : (((yearObs year moods).map
          (fun e => (e.date.month, MoodType.get_value e.mood))).filter
          (fun p => decide (p.1 = m.val + 1))).map Prod.snd
        = (monthObs year moods (m.val + 1)).map (fun e => MoodType.get_value e.mood) := by
      rw [List.filter_map, List.map_map]
      rfl
    rw [hvs, hempty]
    simp

/-- C6 witness: a single Monday entry in the week 2025-10-06..2025-10-12 fills
the Monday slot and leaves Tuesday null with count 0; the empty year 2024
reports the literal 0 for March. -/
theorem claim_C6_witness :
    ((get_weekly_patterns_for_period ⟨2025, 10, 6⟩ ⟨2025, 10, 12⟩
        [⟨"well", ⟨2025, 10, 6⟩, none⟩]).bind (fun w => w.data[(1 : ℕ)]?) = some none) ∧
    ((get_weekly_patterns_for_period ⟨2025, 10, 6⟩ ⟨2025, 10, 12⟩
        [⟨"well", ⟨2025, 10, 6⟩, none⟩]).bind (fun w => w.counts[(0 : ℕ)]?) = some 1) ∧
    ((get_monthly_trends_for_year 2024 []).bind (fun l => l[(2 : ℕ)]?) = some 0) := by
  have h := claim_C6
  have hweek := h.1 ⟨2025, 10, 6⟩ ⟨2025, 10, 12⟩ [⟨"well", ⟨2025, 10, 6⟩, none⟩]
    (by decide)
  have hmon := h.2 2024 [] (by decide) ⟨2, by decide⟩ (by decide)
  refine ⟨?_, ?_, hmon⟩
  · exact (hweek ⟨1, by decide⟩).1.mpr (by decide)
  · have hc := (hweek ⟨0, by decide⟩).2.1
    rwa [show (periodDayObs ⟨2025, 10, 6⟩ ⟨2025, 10, 12⟩
      [⟨"well", ⟨2025, 10, 6⟩, none⟩] 0).length = 1 from by decide] at hc

/-- C7: the local civil time used by the hour-of-day bucketing and the
single-date filter subtracts exactly 3 hours (no DST), and consequently every
timestamp with UTC time 00:00..02:59 is attributed to the previous local
calendar day and lands on local hour 21..23; a single such observation is
returned by the single-date query for the previous day, at its local
fractional-hour position. -/
theorem claim_C7 :
    (∀ t : ℤ, toChileTime t = t - 3 * 60) ∧
    (∀ t : ℤ, t % 1440 < 180 →
      chileDay t = tsDay t - 1 ∧ 21 ≤ chileHour t ∧ chileHour t ≤ 23) ∧
    (∀ (m : String) (cd : CivilDate) (t : ℤ) (v : ℚ), moodValue? m = some v →
      t % 1440 < 180 →
      get_daily_patterns_for_date (tsDay t - 1) [⟨m, cd, some t⟩]
        = some [⟨((toChileTime t % 1440 : ℤ) : ℚ) / 60, v⟩]) := by
  have harith : ∀ t : ℤ, t % 1440 < 180 →
      chileDay t = tsDay t - 1 ∧ 21 ≤ chileHour t ∧ chileHour t ≤ 23 := by
    intro t ht
    unfold chileDay chileHour tsDay tsHour toChileTime
    omega
  refine ⟨fun t => rfl, harith, ?_⟩
  intro m cd t v hm ht
  have hday : chileDay t = tsDay t - 1 := (harith t ht).1
  simp only [get_daily_patterns_for_date, timestamped]
  have hfm : ([(⟨m, cd, some t⟩ : Obs)].filterMap
      (fun e => e.timestamp.map (fun ts => (e.mood, ts)))) = [(m, t)] := by
    simp
  rw [hfm]
  have hfil : ([((m : String), (t : ℤ))].filter
      (fun p => decide (chileDay p.2 = tsDay t - 1))) = [(m, t)] := by
    simp [hday]
  rw [hfil]
  have hsort : ([((m : String), (t : ℤ))].mergeSort
      (fun a b => decide (toChileTime a.2 ≤ toChileTime b.2))) = [(m, t)] :=
    List.perm_singleton.mp (List.mergeSort_perm _ _)
  rw [hsort]
  have hmapM : ([((m : String), (t : ℤ))].mapM
      (fun p => (moodValue? p.1).map (fun v2 =>
        (⟨((toChileTime p.2 % 1440 : ℤ) : ℚ) / 60, v2⟩ : DayPoint))))
      = some ([((m : String), (t : ℤ))].map (fun p =>
        (⟨((toChileTime p.2 % 1440 : ℤ) : ℚ) / 60,
          (moodValue? p.1).getD 0⟩ : DayPoint))) := by
    apply mapM_option_eq_map
    intro a ha
    have hae : a = (m, t) := by simpa using ha
    rw [hae]
    simp [hm]
  rw [hmapM]
  simp [hm]

/-- C7 witness: the timestamp 60 (01:00 UTC of day 0) lands on local day -1,
local hour 22, and the single-date query for day -1 returns it. -/
theorem claim_C7_witness :
    (chileDay 60 = tsDay 60 - 1 ∧ 21 ≤ chileHour 60 ∧ chileHour 60 ≤ 23) ∧
    get_daily_patterns_for_date (tsDay 60 - 1) [⟨"well", ⟨2025, 1, 1⟩, some 60⟩]
      = some [⟨((toChileTime 60 % 1440 : ℤ) : ℚ) / 60, 6⟩] :=
  ⟨claim_C7.2.1 60 (by decide),
   claim_C7.2.2 ("well") ⟨2025, 1, 1⟩ 60 6 (by decide) (by decide)⟩

/-- C8: every tag occurring in the joined rows (so with at least 1
observation) appears in the correlations result, carrying its rounded average
mood, its frequency, and the impact classification of its raw average
(Positive at `>= 5.5`, Negative at `<= 3.5`, else Neutral); the concrete tag
with mood values 6, 6, 7 is classified Positive with average 6.33. -/
theorem claim_C8 :
    (∀ (rows : List TagRow) (t : String), t ∈ rows.map TagRow.tag_name →
      ∃ rec ∈ get_trigger_correlations rows,
        rec.tag = t ∧
        rec.average_mood = round2 (mean (tagValues rows t)) ∧
        rec.frequency = (rows.filter (fun r => decide (r.tag_name = t))).length ∧
        rec.impact = calculate_impact (mean (tagValues rows t))) ∧
    get_trigger_correlations exerciseRows
      = [⟨"exercise", "health", 633/100, 3, ("Positive")⟩] := by
  constructor
  · intro rows t hmem
    have hne : rows ≠ [] := by
      rintro rfl
      simp at hmem
    have hgmem := groupByKey_mem_of_key_mem TagRow.tag_name
      (fun r => (mood_to_numeric r.mood, r.category)) rows t hmem
    obtain ⟨r0, hr0, hr0t⟩ := List.mem_map.mp hmem
    have hfilne : rows.filter (fun r => decide (r.tag_name = t)) ≠ [] := by
      intro hnil
      have : r0 ∈ rows.filter (fun r => decide (r.tag_name = t)) :=
        List.mem_filter.mpr ⟨hr0, by simp [hr0t]⟩
      rw [hnil] at this
      simp at this
    have hlen : 1 ≤ ((rows.filter (fun r => decide (r.tag_name = t))).map
        (fun r => (mood_to_numeric r.mood, r.category))).length := by
      rw [List.length_map]
      exact List.length_pos.mpr hfilne
    simp only [get_trigger_correlations]
    rw [if_neg hne]
    refine ⟨_, (List.mergeSort_perm _ _).mem_iff.mpr (List.mem_filterMap.mpr
      ⟨(t, (rows.filter (fun r => decide (r.tag_name = t))).map
        (fun r => (mood_to_numeric r.mood, r.category))), hgmem, if_pos hlen⟩),
      rfl, ?_, ?_, ?_⟩
    · show round2 (mean (((rows.filter (fun r => decide (r.tag_name = t))).map
        (fun r => (mood_to_numeric r.mood, r.category))).map Prod.fst))
        = round2 (mean (tagValues rows t))
      rw [List.map_map]
      rfl
    · show (((rows.filter (fun r => decide (r.tag_name = t))).map
        (fun r => (mood_to_numeric r.mood, r.category)))).length
        = (rows.filter (fun r => decide (r.tag_name = t))).length
      rw [List.length_map]
    · show calculate_impact (mean (((rows.filter (fun r => decide (r.tag_name = t))).map
        (fun r => (mood_to_numeric r.mood, r.category))).map Prod.fst))
        = calculate_impact (mean (tagValues rows t))
      rw [List.map_map]
      rfl
  · have hg : groupByKey TagRow.tag_name (fun r => (mood_to_numeric r.mood, r.category))
        exerciseRows
        = [(("exercise" : String),
            [((6 : ℚ), ("health" : String)), (6, "health"), (7, "health")])] := by
      have h6 : mood_to_numeric ("well") = 6 := by decide
      have h7 : mood_to_numeric ("very well") = 7 := by decide
      simp [exerciseRows, groupByKey, dictAppend, h6, h7]
    simp only [get_trigger_correlations]
    rw [if_neg (by decide), hg]
    have havg : mean [(6 : ℚ), 6, 7] = 19/3 := by
      norm_num [mean]
    have hr2 : round2 ((19 : ℚ)/3) = 633/100 := by
      norm_num [round2, pyRound]
    have himp : calculate_impact ((19 : ℚ)/3) = ("Positive") := by
      unfold calculate_impact
      rw [if_pos (by norm_num)]
    simp only [List.filterMap]
    rw [if_pos (by norm_num)]
    simp only [List.map_cons, List.map_nil, List.head?_cons, Option.map_some',
      Option.getD_some, List.length_cons, List.length_nil]
    rw [havg, hr2, himp]
    exact List.perm_singleton.mp (List.mergeSort_perm _ _)

/-- C8 witness: the general membership statement applied to the concrete
three-row tag, combined with the evaluated result. -/
theorem claim_C8_witness :
    (get_trigger_correlations exerciseRows).map TagCorr.impact = [("Positive")] := by
  obtain ⟨rec, hmem, htag, havg, hfreq, himp⟩ :=
    claim_C8.1 exerciseRows ("exercise") (by decide)
  rw [claim_C8.2]
  rfl

theorem weekWindow_append_mem (ws we : ℤ) (l : List Obs) (r : Obs)
    (hc : ws ≤ (r.date.toordinal : ℤ) ∧ (r.date.toordinal : ℤ) ≤ we) :
    weekWindow ws we (l ++ [r]) = weekWindow ws we l ++ [r] := by
  unfold weekWindow
  rw [List.filter_append]
  simp [hc]

theorem weekWindow_append_not_mem (ws we : ℤ) (l : List Obs) (r : Obs)
    (hc : ¬ (ws ≤ (r.date.toordinal : ℤ) ∧ (r.date.toordinal : ℤ) ≤ we)) :
    weekWindow ws we (l ++ [r]) = weekWindow ws we l := by
  unfold weekWindow
  rw [List.filter_append]
  simp [hc]

theorem weekStep_mem (ws we : ℤ) (st : List (Option ℚ) × List ℚ) (r : Obs)
    (hc : ws ≤ (r.date.toordinal : ℤ) ∧ (r.date.toordinal : ℤ) ≤ we) :
    weekStep ws we st r
      = (st.1.set r.date.weekday (some (fourWeekValue r.mood)),
         st.2 ++ [fourWeekValue r.mood]) := by
  unfold weekStep
  rw [if_pos hc]

theorem weekStep_not_mem (ws we : ℤ) (st : List (Option ℚ) × List ℚ) (r : Obs)
    (hc : ¬ (ws ≤ (r.date.toordinal : ℤ) ∧ (r.date.toordinal : ℤ) ≤ we)) :
    weekStep ws we st r = st := by
  unfold weekStep
  rw [if_neg hc]

theorem weekFold_snd (ws we : ℤ) (rows : List Obs) :
    (rows.foldl (weekStep ws we) (List.replicate 7 none, [])).2
      = (weekWindow ws we rows).map (fun r => fourWeekValue r.mood) := by
  induction rows using List.reverseRecOn with
  | nil => rfl
  | append_singleton l r ih =>
    rw [List.foldl_append, List.foldl_cons, List.foldl_nil]
    by_cases hc : ws ≤ (r.date.toordinal : ℤ) ∧ (r.date.toordinal : ℤ) ≤ we
    · rw [weekWindow_append_mem ws we l r hc, List.map_append,
        weekStep_mem ws we _ r hc]
      dsimp only
      rw [ih]
      rfl
    · rw [weekWindow_append_not_mem ws we l r hc, weekStep_not_mem ws we _ r hc]
      exact ih

theorem weekFold_fst_length (ws we : ℤ) (rows : List Obs) :
    (rows.foldl (weekStep ws we) (List.replicate 7 none, [])).1.length = 7 := by
  induction rows using List.reverseRecOn with
  | nil => rfl
  | append_singleton l r ih =>
    rw [List.foldl_append, List.foldl_cons, List.foldl_nil]
    by_cases hc : ws ≤ (r.date.toordinal : ℤ) ∧ (r.date.toordinal : ℤ) ≤ we
    · rw [weekStep_mem ws we _ r hc]
      dsimp only
      rw [List.length_set]
      exact ih
    · rw [weekStep_not_mem ws we _ r hc]
      exact ih

theorem weekday_lt_7 (cd : CivilDate) : cd.weekday < 7 := by
  unfold CivilDate.weekday
  omega

theorem weekFold_fst_get (ws we : ℤ) (rows : List Obs) (d : ℕ) (hd : d < 7) :
    (rows.foldl (weekStep ws we) (List.replicate 7 none, [])).1[d]?
      = some (((weekWindow ws we rows).filter
          (fun r => decide (r.date.weekday = d))).getLast?.map
          (fun r => fourWeekValue r.mood)) := by
  induction rows using List.reverseRecOn with
  | nil =>
    show (List.replicate 7 (none : Option ℚ))[d]? = _
    rw [List.getElem?_replicate, if_pos hd]
    simp [weekWindow]
  | append_singleton l r ih =>
    rw [List.foldl_append, List.foldl_cons, List.foldl_nil]
    by_cases hc : ws ≤ (r.date.toordinal : ℤ) ∧ (r.date.toordinal : ℤ) ≤ we
    · rw [weekWindow_append_mem ws we l r hc, List.filter_append,
        weekStep_mem ws we _ r hc]
      dsimp only
      by_cases hdw : r.date.weekday = d
      · rw [List.getElem?_set]
        rw [if_pos hdw, if_pos (by rw [weekFold_fst_length]; exact hdw ▸ weekday_lt_7 r.date)]
        have hfr : (List.filter (fun r2 => decide (r2.date.weekday = d)) [r]) = [r] := by
          simp [hdw]
        rw [hfr, List.getLast?_concat]
        rfl
      · rw [List.getElem?_set, if_neg hdw]
        have hfr : (List.filter (fun r2 => decide (r2.date.weekday = d)) [r]) = [] := by
          simp [hdw]
        rw [hfr, List.append_nil]
        exact ih
    · rw [weekWindow_append_not_mem ws we l r hc, weekStep_not_mem ws we _ r hc]
      exact ih

/-- C10: in a 4-week-comparison window, each of the 7 weekday slots holds the
mood value of the LAST observation for that weekday in input order (or `None`
when the weekday has none), while `entries_count` counts every observation of
the window and the average is taken over all of them — so a day with several
observations shows a single observation's value in its slot, which can
disagree with the window average, as the two-entry Monday (values 2 and 6,
slot 6, day mean 4) shows. -/
theorem claim_C10 :
    (∀ (ws we : ℤ) (rows : List Obs) (d : Fin 7),
      (buildWeek ws we rows).data[d.val]?
        = some (((weekWindow ws we rows).filter
            (fun r => decide (r.date.weekday = d.val))).getLast?.map
            (fun r => fourWeekValue r.mood)) ∧
      (buildWeek ws we rows).entries_count = (weekWindow ws we rows).length ∧
      (buildWeek ws we rows).average
        = (if ((weekWindow ws we rows).map (fun r => fourWeekValue r.mood)) = [] then none
           else if mean ((weekWindow ws we rows).map (fun r => fourWeekValue r.mood)) = 0
           then none
           else some (round1 (mean ((weekWindow ws we rows).map
             (fun r => fourWeekValue r.mood)))))) ∧
    ((buildWeek ((⟨2025, 10, 6⟩ : CivilDate).toordinal : ℤ)
        (((⟨2025, 10, 6⟩ : CivilDate).toordinal : ℤ) + 6)
        [⟨"bad", ⟨2025, 10, 6⟩, none⟩, ⟨"well", ⟨2025, 10, 6⟩, none⟩]).data[(0 : ℕ)]?
        = some (some 6) ∧
      mean [(2 : ℚ), 6] = 4 ∧ (6 : ℚ) ≠ 4) := by
  constructor
  · intro ws we rows d
    refine ⟨?_, ?_, ?_⟩
    · show (buildWeek ws we rows).data[d.val]? = _
      unfold buildWeek
      exact weekFold_fst_get ws we rows d.val d.isLt
    · unfold buildWeek
      dsimp only
      rw [weekFold_snd, List.length_map]
    · unfold buildWeek
      dsimp only
      rw [weekFold_snd]
      by_cases hnil : ((weekWindow ws we rows).map (fun r => fourWeekValue r.mood)) = []
      · simp only [if_pos hnil]
      · simp only [if_neg hnil]
  · refine ⟨?_, by norm_num [mean], by norm_num⟩
    have h := weekFold_fst_get ((⟨2025, 10, 6⟩ : CivilDate).toordinal : ℤ)
      (((⟨2025, 10, 6⟩ : CivilDate).toordinal : ℤ) + 6)
      [⟨"bad", ⟨2025, 10, 6⟩, none⟩, ⟨"well", ⟨2025, 10, 6⟩, none⟩] 0 (by norm_num)
    unfold buildWeek
    rw [h]
    have hwin : weekWindow ((⟨2025, 10, 6⟩ : CivilDate).toordinal : ℤ)
        (((⟨2025, 10, 6⟩ : CivilDate).toordinal : ℤ) + 6)
        [⟨"bad", ⟨2025, 10, 6⟩, none⟩, ⟨"well", ⟨2025, 10, 6⟩, none⟩]
        = [⟨"bad", ⟨2025, 10, 6⟩, none⟩, ⟨"well", ⟨2025, 10, 6⟩, none⟩] := by decide
    rw [hwin]
    have hfil : (List.filter (fun r => decide (r.date.weekday = 0))
        [(⟨"bad", ⟨2025, 10, 6⟩, none⟩ : Obs), ⟨"well", ⟨2025, 10, 6⟩, none⟩])
        = [⟨"bad", ⟨2025, 10, 6⟩, none⟩, ⟨"well", ⟨2025, 10, 6⟩, none⟩] := by decide
    rw [hfil]
    have hv : fourWeekValue ("well") = 6 := by decide
    simp [List.getLast?, hv]
